import Mathlib

/-!
Verification of the bubblesub timeline position expression language ("Pts").

The repository ships the test suite for the Pts evaluator
(bubblesub/tests/cmd/common/test_pts.py) but not the evaluator module itself
(bubblesub/cmd/common.py) nor the command error classes (bubblesub/api/cmd.py).
The evaluator is therefore modelled from the specification (grammar in spec
section 4.1, resolution rules in section 4.2, error taxonomy in section 7),
and the model is checked against the expected values recorded in the shipped
test suite.
-/

namespace Pts

/-- Sign attached to a term in an expression. -/
inductive Sign : Type
  | plus
  | minus
  deriving DecidableEq, Repr

/-- Edge selector for subtitle and audio terms. `start` is the start
millisecond bound, `stop` the end millisecond bound. -/
inductive Edge : Type
  | start
  | stop
  deriving DecidableEq, Repr

/-- Modelled from the spec: the tagged term variants of section 3. -/
inductive Term : Type
  | milliseconds (v : Int)
  | frameOrdinal (n : Nat)
  | currentFrame
  | prevFrame
  | nextFrame
  | keyframeOrdinal (n : Nat)
  | currentKeyframe
  | prevKeyframe
  | nextKeyframe
  | subtitleOrdinal (n : Nat) (edge : Edge)
  | currentSubtitle (edge : Edge)
  | prevSubtitle (edge : Edge)
  | nextSubtitle (edge : Edge)
  | audioSelection (edge : Edge)
  | audioView (edge : Edge)
  | defaultSubtitleDuration
  deriving DecidableEq, Repr

/-- Modelled from the spec: error kinds of section 7, plus the
NoCurrentFrame kind named in section 4.2. -/
inductive PtsError : Type
  | malformed
  | noFrames
  | outOfRange
  | unavailable
  | noCurrentFrame
  deriving DecidableEq, Repr

/-- Modelled from the spec: an expression is a first term with an optional
sign followed by a chain of signed terms. -/
structure Expression : Type where
  firstSign : Option Sign
  firstTerm : Term
  rest : List (Sign × Term)
  deriving DecidableEq, Repr

/-- A subtitle event: start and end milliseconds. -/
structure SubEvent : Type where
  start : Int
  stop : Int
  deriving DecidableEq, Repr

instance : Inhabited SubEvent := ⟨⟨0, 0⟩⟩

/-- The chosen edge (start or end ms) of a subtitle event. -/
def SubEvent.edge (ev : SubEvent) : Edge → Int
  | Edge.start => ev.start
  | Edge.stop => ev.stop

/-- Modelled from the spec: the read-only timeline snapshot of section 3. -/
structure TimelineContext : Type where
  frames : List Int
  keyframes : List Nat
  currentPts : Int
  events : List SubEvent
  selection : List Nat
  audioSel : Option (Int × Int)
  audioViewStart : Int
  audioViewEnd : Int
  defaultDuration : Int

/-! ### Tokenizer / parser, modelled from the grammar of spec section 4.1 -/

def isWsChar (c : Char) : Bool := c = ' ' || c = '\t'

/-- Drop leading whitespace characters. -/
def skipWs : List Char → List Char
  | [] => []
  | c :: rest => if isWsChar c then skipWs rest else c :: rest

def isDigitChar (c : Char) : Bool := '0' ≤ c && c ≤ '9'

/-- Split off the leading run of digit characters. -/
def takeDigits : List Char → List Char × List Char
  | [] => ([], [])
  | c :: rest =>
    if isDigitChar c then
      (c :: (takeDigits rest).1, (takeDigits rest).2)
    else ([], c :: rest)

def digitVal (c : Char) : Nat := c.toNat - Char.toNat '0'

def digitsToNat (ds : List Char) : Nat :=
  ds.foldl (fun acc c => 10 * acc + digitVal c) 0

def parseEdge (c : Char) : Option Edge :=
  if c = 's' then some Edge.start
  else if c = 'e' then some Edge.stop
  else none

/-- Modelled from the spec: parse one term of the grammar of section 4.1.
Whitespace is permitted between a number and its unit suffix. -/
def parseTerm (cs : List Char) : Option (Term × List Char) :=
  match takeDigits cs with
  | (d :: ds, rest) =>
    let n := digitsToNat (d :: ds)
    match skipWs rest with
    | 'm' :: 's' :: rest2 => some (Term.milliseconds (Int.ofNat n), rest2)
    | 'k' :: 'f' :: rest2 => some (Term.keyframeOrdinal n, rest2)
    | 'f' :: rest2 => some (Term.frameOrdinal n, rest2)
    | _ => none
  | ([], _) =>
    match cs with
    | 'c' :: 'k' :: 'f' :: rest => some (Term.currentKeyframe, rest)
    | 'p' :: 'k' :: 'f' :: rest => some (Term.prevKeyframe, rest)
    | 'n' :: 'k' :: 'f' :: rest => some (Term.nextKeyframe, rest)
    | 'c' :: 'f' :: rest => some (Term.currentFrame, rest)
    | 'p' :: 'f' :: rest => some (Term.prevFrame, rest)
    | 'n' :: 'f' :: rest => some (Term.nextFrame, rest)
    | 'c' :: 's' :: '.' :: e :: rest =>
      (parseEdge e).map fun ed => (Term.currentSubtitle ed, rest)
    | 'p' :: 's' :: '.' :: e :: rest =>
      (parseEdge e).map fun ed => (Term.prevSubtitle ed, rest)
    | 'n' :: 's' :: '.' :: e :: rest =>
      (parseEdge e).map fun ed => (Term.nextSubtitle ed, rest)
    | 'a' :: 'v' :: '.' :: e :: rest =>
      (parseEdge e).map fun ed => (Term.audioView ed, rest)
    | 'a' :: '.' :: e :: rest =>
      (parseEdge e).map fun ed => (Term.audioSelection ed, rest)
    | 'd' :: 's' :: 'd' :: rest => some (Term.defaultSubtitleDuration, rest)
    | 's' :: rest =>
      match takeDigits rest with
      | (d :: ds, '.' :: e :: rest2) =>
        (parseEdge e).map fun ed => (Term.subtitleOrdinal (digitsToNat (d :: ds)) ed, rest2)
      | _ => none
    | _ => none

def parseSign (c : Char) : Option Sign :=
  if c = '+' then some Sign.plus
  else if c = '-' then some Sign.minus
  else none

/-- Parse the chain of operator-and-term pairs following the first term.
The fuel argument bounds the recursion; each iteration consumes at least
the operator character, so fuel equal to the remaining length suffices. -/
def parseRestAux : Nat → List Char → Option (List (Sign × Term))
  | 0, cs => if skipWs cs = [] then some [] else none
  | fuel + 1, cs =>
    match skipWs cs with
    | [] => some []
    | c :: rest =>
      match parseSign c with
      | none => none
      | some sg =>
        match parseTerm (skipWs rest) with
        | none => none
        | some (t, rest2) =>
          match parseRestAux fuel rest2 with
          | none => none
          | some chain => some ((sg, t) :: chain)

/-- Modelled from the spec: parse a whole expression from its characters,
failing with Malformed on empty input, dangling or doubled operators,
missing unit suffixes and unrecognized tokens. -/
def parseChars (cs : List Char) : Except PtsError Expression :=
  match skipWs cs with
  | [] => Except.error PtsError.malformed
  | c :: rest =>
    match parseSign c with
    | some sg =>
      match parseTerm (skipWs rest) with
      | none => Except.error PtsError.malformed
      | some (t, rest2) =>
        match parseRestAux (rest2.length + 1) rest2 with
        | none => Except.error PtsError.malformed
        | some chain => Except.ok ⟨some sg, t, chain⟩
    | none =>
      match parseTerm (c :: rest) with
      | none => Except.error PtsError.malformed
      | some (t, rest2) =>
        match parseRestAux (rest2.length + 1) rest2 with
        | none => Except.error PtsError.malformed
        | some chain => Except.ok ⟨none, t, chain⟩

def parse (s : String) : Except PtsError Expression := parseChars s.toList

/-- An operator character. -/
def opChar (c : Char) : Bool := c = '+' || c = '-'

/-- The characters a successfully parsed term can end with: every unit or
edge suffix of the grammar ends in one of them. -/
def termEnder (c : Char) : Bool := c = 's' || c = 'f' || c = 'e' || c = 'd'

/-- The last character of the list that is not whitespace, if any. -/
def lastNonWs : List Char → Option Char
  | [] => none
  | c :: rest =>
    match lastNonWs rest with
    | some d => some d
    | none => if isWsChar c then none else some c

/-! ### Shared timeline lookup helpers, modelled from spec section 4.2 -/

/-- Modelled from the spec: index of the rightmost element of the list that
is at most q, or the sentinel -1 when there is none. -/
def floorSearch : List Int → Int → Int
  | [], _ => -1
  | a :: rest, q =>
    if 0 ≤ floorSearch rest q then floorSearch rest q + 1
    else if a ≤ q then 0
    else -1

/-- Modelled from the spec: index of the leftmost element of the list that
is at least q, or the sentinel equal to the length when there is none. -/
def ceilSearch : List Int → Int → Int
  | [], _ => 0
  | a :: rest, q => if q ≤ a then 0 else ceilSearch rest q + 1

/-- Index into the list after clamping the index into [0, length - 1]. -/
def getClamped (A : List Int) (i : Int) : Int :=
  A.getD (max 0 (min i ((A.length : Int) - 1))).toNat 0

/-- Modelled from the spec: the indexed step lookup shared by frame and
keyframe deltas; floor-search plus the step for a non-negative step,
ceil-search plus the (negative) step otherwise, then clamp. -/
def stepLookup (A : List Int) (q : Int) (step : Int) : Except PtsError Int :=
  if A.isEmpty then Except.error PtsError.noFrames
  else if 0 ≤ step then Except.ok (getClamped A (floorSearch A q + step))
  else Except.ok (getClamped A (ceilSearch A q + step))

/-- Modelled from the spec: the ordered sub-sequence of frame times selected
by the keyframe index set. -/
def kfTimes (ctx : TimelineContext) : List Int :=
  ctx.keyframes.filterMap fun i => ctx.frames.get? i

/-- Modelled from the spec: 1-based ordinal lookup into an anchor table,
clamping the zero-based index into the table; fails on an empty table. -/
def ordinalLookup (A : List Int) (n : Nat) : Except PtsError Int :=
  if A.isEmpty then Except.error PtsError.noFrames
  else Except.ok (A.getD (min (n - 1) (A.length - 1)) 0)

/-- Modelled from the spec: positional current-anchor resolution over an
anchor table; the caller chooses the empty-table outcome (fallback 0 for the
frame table, NoFrames for the keyframe table). -/
def currentAnchor (A : List Int) (pts : Int) (emptyCase : Except PtsError Int) :
    Except PtsError Int :=
  if A.isEmpty then emptyCase
  else
    let i := floorSearch A pts
    if i < 0 then Except.error PtsError.noCurrentFrame
    else Except.ok (A.getD i.toNat 0)

/-- Modelled from the spec: positional previous-anchor resolution. -/
def prevAnchor (A : List Int) (pts : Int) : Except PtsError Int :=
  if A.isEmpty then Except.error PtsError.noFrames
  else
    let i := floorSearch A pts - 1
    if i < 0 then Except.error PtsError.outOfRange
    else Except.ok (A.getD i.toNat 0)

/-- Modelled from the spec: positional next-anchor resolution. -/
def nextAnchor (A : List Int) (pts : Int) : Except PtsError Int :=
  if A.isEmpty then Except.error PtsError.noFrames
  else
    let i := floorSearch A pts + 1
    if (A.length : Int) ≤ i then Except.error PtsError.outOfRange
    else Except.ok (A.getD i.toNat 0)

/-! ### Resolver / evaluator, modelled from spec section 4.2 -/

/-- Modelled from the spec: per-kind positional resolution, used when a term
is the establishing (first) term of the expression. -/
def resolvePositional (t : Term) (ctx : TimelineContext) : Except PtsError Int :=
  match t with
  | Term.milliseconds v => Except.ok v
  | Term.frameOrdinal n => ordinalLookup ctx.frames n
  | Term.currentFrame => currentAnchor ctx.frames ctx.currentPts (Except.ok 0)
  | Term.prevFrame => prevAnchor ctx.frames ctx.currentPts
  | Term.nextFrame => nextAnchor ctx.frames ctx.currentPts
  | Term.keyframeOrdinal n => ordinalLookup (kfTimes ctx) n
  | Term.currentKeyframe =>
    currentAnchor (kfTimes ctx) ctx.currentPts (Except.error PtsError.noFrames)
  | Term.prevKeyframe => prevAnchor (kfTimes ctx) ctx.currentPts
  | Term.nextKeyframe => nextAnchor (kfTimes ctx) ctx.currentPts
  | Term.subtitleOrdinal n edge =>
    if ctx.events.isEmpty then Except.ok 0
    else Except.ok ((ctx.events.getD (min (n - 1) (ctx.events.length - 1)) default).edge edge)
  | Term.currentSubtitle edge =>
    match ctx.selection.head? with
    | none => Except.ok 0
    | some i => Except.ok ((ctx.events.getD i default).edge edge)
  | Term.prevSubtitle edge =>
    match ctx.selection.head? with
    | none => Except.ok 0
    | some i =>
      if i = 0 then Except.ok 0
      else Except.ok ((ctx.events.getD (i - 1) default).edge edge)
  | Term.nextSubtitle edge =>
    match ctx.selection.head? with
    | none => Except.ok 0
    | some i =>
      if ctx.events.length ≤ i + 1 then Except.ok 0
      else Except.ok ((ctx.events.getD (i + 1) default).edge edge)
  | Term.audioSelection edge =>
    match ctx.audioSel with
    | none => Except.error PtsError.unavailable
    | some b => Except.ok (match edge with | Edge.start => b.1 | Edge.stop => b.2)
  | Term.audioView edge =>
    Except.ok (match edge with | Edge.start => ctx.audioViewStart | Edge.stop => ctx.audioViewEnd)
  | Term.defaultSubtitleDuration => Except.ok ctx.defaultDuration

def signedInt (sg : Sign) (v : Int) : Int :=
  match sg with
  | Sign.plus => v
  | Sign.minus => -v

/-- Modelled from the spec: resolution of a signed chained term against the
accumulator; plain integer arithmetic for Milliseconds, the indexed step
lookup with the accumulator as query for frame and keyframe terms, and
Malformed for the anchor kinds that are undefined as deltas. -/
def resolveDelta (acc : Int) (sg : Sign) (t : Term) (ctx : TimelineContext) :
    Except PtsError Int :=
  match t with
  | Term.milliseconds v => Except.ok (acc + signedInt sg v)
  | Term.frameOrdinal n => stepLookup ctx.frames acc (signedInt sg (Int.ofNat n))
  | Term.keyframeOrdinal n => stepLookup (kfTimes ctx) acc (signedInt sg (Int.ofNat n))
  | Term.currentFrame => stepLookup ctx.frames acc 0
  | Term.prevFrame => stepLookup ctx.frames acc (-1)
  | Term.nextFrame => stepLookup ctx.frames acc 1
  | Term.currentKeyframe => stepLookup (kfTimes ctx) acc 0
  | Term.prevKeyframe => stepLookup (kfTimes ctx) acc (-1)
  | Term.nextKeyframe => stepLookup (kfTimes ctx) acc 1
  | _ => Except.error PtsError.malformed

/-- Walk the chained terms left to right, updating the accumulator. -/
def evalRest (ctx : TimelineContext) : Int → List (Sign × Term) → Except PtsError Int
  | acc, [] => Except.ok acc
  | acc, (sg, t) :: rest =>
    match resolveDelta acc sg t ctx with
    | Except.error e => Except.error e
    | Except.ok acc2 => evalRest ctx acc2 rest

/-- Modelled from the spec: resolution of the first term. A signed leading
Milliseconds term resolves to origin (defaulting to 0) plus or minus the
value; this is the only place origin is consulted. Every other first term
resolves positionally. -/
def resolveFirst (sg : Option Sign) (t : Term) (origin : Option Int)
    (ctx : TimelineContext) : Except PtsError Int :=
  match sg, t with
  | some s, Term.milliseconds v => Except.ok (origin.getD 0 + signedInt s v)
  | _, _ => resolvePositional t ctx

/-- Modelled from the spec: the evaluation loop of section 4.2. -/
def evaluateExpr (e : Expression) (origin : Option Int) (ctx : TimelineContext) :
    Except PtsError Int :=
  match resolveFirst e.firstSign e.firstTerm origin ctx with
  | Except.error err => Except.error err
  | Except.ok acc => evalRest ctx acc e.rest

/-- Parse and evaluate an expression string against an origin and a
timeline context. -/
def evaluate (s : String) (origin : Option Int) (ctx : TimelineContext) :
    Except PtsError Int :=
  match parse s with
  | Except.error err => Except.error err
  | Except.ok e => evaluateExpr e origin ctx

/-! ### Exception class hierarchy, modelled from the test suite -/

/-- Modelled from the spec: the Python exception classes visible to callers.
CommandUnavailable is the concrete class of the Unavailable failure;
CommandError is the general command error class. -/
inductive ExcClass : Type
  | exception
  | commandError
  | commandUnavailable
  deriving DecidableEq, Repr

/-- Modelled from the spec: direct superclass links; CommandUnavailable
subclasses CommandError, which subclasses the base exception class. -/
def excSuper : ExcClass → Option ExcClass
  | ExcClass.exception => none
  | ExcClass.commandError => some ExcClass.exception
  | ExcClass.commandUnavailable => some ExcClass.commandError

def catchesAux : Nat → ExcClass → ExcClass → Bool
  | 0, _, _ => false
  | fuel + 1, handler, raised =>
    if raised = handler then true
    else
      match excSuper raised with
      | none => false
      | some p => catchesAux fuel handler p

/-- A handler for class handler catches an exception whose concrete class is
raised when handler is raised itself or a transitive superclass of it. -/
def catches (handler raised : ExcClass) : Bool := catchesAux 3 handler raised

/-- Modelled from the spec: the concrete exception class raised for each
evaluator failure; Unavailable raises CommandUnavailable, every other kind
raises the general CommandError. -/
def excClassOf : PtsError → ExcClass
  | PtsError.unavailable => ExcClass.commandUnavailable
  | _ => ExcClass.commandError

/-! ### Concrete contexts mirroring the shipped test suite -/

/-- An all-empty timeline context. -/
def baseCtx : TimelineContext :=
  { frames := [], keyframes := [], currentPts := 0, events := [], selection := [],
    audioSel := none, audioViewStart := 0, audioViewEnd := 0, defaultDuration := 0 }

/-- Frames 10, 20, 30; playback position 0. -/
def ctx310 : TimelineContext := { baseCtx with frames := [10, 20, 30] }

/-- Frames 10, 20, 30 with keyframes at indices 0 and 2. -/
def ctxKf02 : TimelineContext :=
  { baseCtx with frames := [10, 20, 30], keyframes := [0, 2] }

/-- Frames 10, 20, 30; playback position at the second frame. -/
def ctxCur310 : TimelineContext :=
  { baseCtx with frames := [10, 20, 30], currentPts := 20 }

/-- Frames 10, 20, 30, 40; keyframes at indices 0, 1, 3; position at frame 1. -/
def ctxKf4a : TimelineContext :=
  { baseCtx with frames := [10, 20, 30, 40], keyframes := [0, 1, 3], currentPts := 20 }

/-- Frames 10, 20, 30, 40; keyframes at indices 0, 1, 2; position at frame 1. -/
def ctxKf4b : TimelineContext :=
  { baseCtx with frames := [10, 20, 30, 40], keyframes := [0, 1, 2], currentPts := 20 }

/-- Audio selection from 1 to 2. -/
def ctxAud : TimelineContext := { baseCtx with audioSel := some (1, 2) }

/-- A single subtitle event from 1 to 2, nothing selected. -/
def ctxSubs1 : TimelineContext := { baseCtx with events := [⟨1, 2⟩] }

/-- Three subtitle events; the second one is selected. -/
def ctxSubs3sel1 : TimelineContext :=
  { baseCtx with events := [⟨1, 2⟩, ⟨3, 4⟩, ⟨5, 6⟩], selection := [1] }

/-- Three subtitle events; the first one is selected. -/
def ctxSubs3sel0 : TimelineContext :=
  { baseCtx with events := [⟨1, 2⟩, ⟨3, 4⟩, ⟨5, 6⟩], selection := [0] }

/-- Three subtitle events; the last one is selected. -/
def ctxSubs3sel2 : TimelineContext :=
  { baseCtx with events := [⟨1, 2⟩, ⟨3, 4⟩, ⟨5, 6⟩], selection := [2] }

/-! ### Characterization of the floor and ceil searches -/

theorem floorSearch_ge (A : List Int) (q : Int) : -1 ≤ floorSearch A q := by
  induction A with
  | nil => simp [floorSearch]
  | cons a rest ih =>
    rw [floorSearch]
    split_ifs <;> omega

theorem floorSearch_lt_length (A : List Int) (q : Int) :
    floorSearch A q < (A.length : Int) := by
  induction A with
  | nil => simp [floorSearch]
  | cons a rest ih =>
    rw [floorSearch]
    simp only [List.length_cons]
    split_ifs <;> push_cast <;> omega

theorem floorSearch_none (A : List Int) (q : Int) :
    floorSearch A q = -1 ↔ ∀ a ∈ A, q < a := by
  induction A with
  | nil => simp [floorSearch]
  | cons a rest ih =>
    rw [floorSearch]
    have hge := floorSearch_ge rest q
    constructor
    · intro h
      split_ifs at h with h1 h2
      · exfalso; omega
      · intro x hx
        rcases List.mem_cons.mp hx with rfl | hx2
        · omega
        · exact (ih.mp (by omega)) x hx2
    · intro h
      have ha : q < a := h a (List.mem_cons_self a rest)
      have hrest : floorSearch rest q = -1 :=
        ih.mpr fun x hx => h x (List.mem_cons_of_mem a hx)
      split_ifs <;> omega

theorem floorSearch_le_q (A : List Int) (q : Int) :
    0 ≤ floorSearch A q → A.getD (floorSearch A q).toNat 0 ≤ q := by
  induction A with
  | nil => intro h; simp [floorSearch] at h
  | cons a rest ih =>
    rw [floorSearch]
    intro h
    split_ifs at h ⊢ with h1 h2
    · have ht : (floorSearch rest q + 1).toNat = (floorSearch rest q).toNat + 1 := by omega
      rw [ht, List.getD_cons_succ]
      exact ih h1
    · have ht : (0 : Int).toNat = 0 := rfl
      rw [ht, List.getD_cons_zero]
      exact h2
    · exfalso; omega

theorem floorSearch_rightmost (A : List Int) (q : Int) (j : Nat) :
    j < A.length → A.getD j 0 ≤ q → (j : Int) ≤ floorSearch A q := by
  induction A generalizing j with
  | nil => intro hj; simp at hj
  | cons a rest ih =>
    intro hj hle
    rw [floorSearch]
    cases j with
    | zero =>
      rw [List.getD_cons_zero] at hle
      have hge := floorSearch_ge rest q
      split_ifs <;> omega
    | succ j' =>
      rw [List.getD_cons_succ] at hle
      simp only [List.length_cons] at hj
      have hih := ih j' (by omega) hle
      split_ifs <;> push_cast <;> omega

theorem ceilSearch_nonneg (A : List Int) (q : Int) : 0 ≤ ceilSearch A q := by
  induction A with
  | nil => simp [ceilSearch]
  | cons a rest ih =>
    rw [ceilSearch]
    split_ifs <;> omega

theorem ceilSearch_le_length (A : List Int) (q : Int) :
    ceilSearch A q ≤ (A.length : Int) := by
  induction A with
  | nil => simp [ceilSearch]
  | cons a rest ih =>
    rw [ceilSearch]
    simp only [List.length_cons]
    split_ifs <;> push_cast <;> omega

theorem ceilSearch_none (A : List Int) (q : Int) :
    ceilSearch A q = (A.length : Int) ↔ ∀ a ∈ A, a < q := by
  induction A with
  | nil => simp [ceilSearch]
  | cons a rest ih =>
    rw [ceilSearch]
    simp only [List.length_cons]
    have hle := ceilSearch_le_length rest q
    constructor
    · intro h
      split_ifs at h with h1
      · exfalso; push_cast at h; omega
      · intro x hx
        rcases List.mem_cons.mp hx with rfl | hx2
        · omega
        · refine (ih.mp ?_) x hx2
          push_cast at h
          omega
    · intro h
      have ha : a < q := h a (List.mem_cons_self a rest)
      have hrest : ceilSearch rest q = (rest.length : Int) :=
        ih.mpr fun x hx => h x (List.mem_cons_of_mem a hx)
      split_ifs with h1
      · exfalso; omega
      · push_cast; omega

theorem ceilSearch_ge_q (A : List Int) (q : Int) :
    ceilSearch A q < (A.length : Int) → q ≤ A.getD (ceilSearch A q).toNat 0 := by
  induction A with
  | nil => intro h; simp [ceilSearch] at h
  | cons a rest ih =>
    rw [ceilSearch]
    intro h
    split_ifs at h ⊢ with h1
    · have ht : (0 : Int).toNat = 0 := rfl
      rw [ht, List.getD_cons_zero]
      exact h1
    · have hnn := ceilSearch_nonneg rest q
      have ht : (ceilSearch rest q + 1).toNat = (ceilSearch rest q).toNat + 1 := by omega
      rw [ht, List.getD_cons_succ]
      apply ih
      simp only [List.length_cons] at h
      push_cast at h
      omega

theorem ceilSearch_leftmost (A : List Int) (q : Int) (j : Nat) :
    j < A.length → q ≤ A.getD j 0 → ceilSearch A q ≤ (j : Int) := by
  induction A generalizing j with
  | nil => intro hj; simp at hj
  | cons a rest ih =>
    intro hj hq
    rw [ceilSearch]
    cases j with
    | zero =>
      rw [List.getD_cons_zero] at hq
      split_ifs <;> omega
    | succ j' =>
      rw [List.getD_cons_succ] at hq
      simp only [List.length_cons] at hj
      have hih := ih j' (by omega) hq
      split_ifs <;> push_cast <;> omega

/-! ### Step lookup lemmas -/

theorem isEmpty_false_of_ne_nil {α : Type} {A : List α} (hA : A ≠ []) :
    A.isEmpty = false := by
  cases A with
  | nil => exact absurd rfl hA
  | cons a l => rfl

theorem stepLookup_pos (A : List Int) (q step : Int) (hA : A ≠ []) (hs : 0 ≤ step) :
    stepLookup A q step = Except.ok (getClamped A (floorSearch A q + step)) := by
  rw [stepLookup, isEmpty_false_of_ne_nil hA]
  simp [hs]

theorem stepLookup_neg (A : List Int) (q step : Int) (hA : A ≠ []) (hs : step < 0) :
    stepLookup A q step = Except.ok (getClamped A (ceilSearch A q + step)) := by
  rw [stepLookup, isEmpty_false_of_ne_nil hA]
  simp [not_le.mpr hs]

/-- C1: a chained frame or keyframe delta with a non-negative step n resolves
to A[clamp(floorSearch(A, acc) + n, 0, len - 1)], and with a negative step -n
to A[clamp(ceilSearch(A, acc) - n, 0, len - 1)], where floorSearch yields the
index of the rightmost element at most the query (sentinel -1 when none) and
ceilSearch the index of the leftmost element at least the query (sentinel len
when none); checked on the frame and keyframe examples over frames
[10, 20, 30] and keyframes at indices 0 and 2. -/
theorem C1_chained_delta_step_lookup :
    (∀ (A : List Int) (q : Int),
      (floorSearch A q = -1 ↔ ∀ a ∈ A, q < a) ∧
      (0 ≤ floorSearch A q →
        floorSearch A q < (A.length : Int) ∧ A.getD (floorSearch A q).toNat 0 ≤ q) ∧
      (∀ j : Nat, j < A.length → A.getD j 0 ≤ q → (j : Int) ≤ floorSearch A q) ∧
      (ceilSearch A q = (A.length : Int) ↔ ∀ a ∈ A, a < q) ∧
      (0 ≤ ceilSearch A q) ∧
      (ceilSearch A q < (A.length : Int) → q ≤ A.getD (ceilSearch A q).toNat 0) ∧
      (∀ j : Nat, j < A.length → q ≤ A.getD j 0 → ceilSearch A q ≤ (j : Int))) ∧
    (∀ (ctx : TimelineContext) (acc : Int) (n : Nat),
      (ctx.frames ≠ [] →
        resolveDelta acc Sign.plus (Term.frameOrdinal n) ctx
          = Except.ok (getClamped ctx.frames (floorSearch ctx.frames acc + (n : Int)))) ∧
      (ctx.frames ≠ [] → 0 < n →
        resolveDelta acc Sign.minus (Term.frameOrdinal n) ctx
          = Except.ok (getClamped ctx.frames (ceilSearch ctx.frames acc - (n : Int)))) ∧
      (kfTimes ctx ≠ [] →
        resolveDelta acc Sign.plus (Term.keyframeOrdinal n) ctx
          = Except.ok (getClamped (kfTimes ctx) (floorSearch (kfTimes ctx) acc + (n : Int)))) ∧
      (kfTimes ctx ≠ [] → 0 < n →
        resolveDelta acc Sign.minus (Term.keyframeOrdinal n) ctx
          = Except.ok (getClamped (kfTimes ctx) (ceilSearch (kfTimes ctx) acc - (n : Int))))) ∧
    evaluate "10ms+1f" none ctx310 = Except.ok 20 ∧
    evaluate "20ms-1f" none ctx310 = Except.ok 10 ∧
    evaluate "21ms-1f" none ctx310 = Except.ok 20 ∧
    evaluate "31ms-1f" none ctx310 = Except.ok 30 ∧
    evaluate "31ms+1f" none ctx310 = Except.ok 30 ∧
    evaluate "10ms+1kf" none ctxKf02 = Except.ok 30 := by
  refine ⟨?_, ?_, rfl, rfl, rfl, rfl, rfl, rfl⟩
  · intro A q
    exact ⟨floorSearch_none A q,
      fun h => ⟨floorSearch_lt_length A q, floorSearch_le_q A q h⟩,
      floorSearch_rightmost A q,
      ceilSearch_none A q, ceilSearch_nonneg A q, ceilSearch_ge_q A q,
      ceilSearch_leftmost A q⟩
  · intro ctx acc n
    have hnn : (0 : Int) ≤ (n : Int) := by omega
    refine ⟨fun hne => ?_, fun hne hn => ?_, fun hne => ?_, fun hne hn => ?_⟩
    · exact stepLookup_pos ctx.frames acc (n : Int) hne hnn
    · have hneg : -(n : Int) < 0 := by omega
      have h := stepLookup_neg ctx.frames acc (-(n : Int)) hne hneg
      rw [show resolveDelta acc Sign.minus (Term.frameOrdinal n) ctx
            = stepLookup ctx.frames acc (-(n : Int)) from rfl, h, sub_eq_add_neg]
    · exact stepLookup_pos (kfTimes ctx) acc (n : Int) hne hnn
    · have hneg : -(n : Int) < 0 := by omega
      have h := stepLookup_neg (kfTimes ctx) acc (-(n : Int)) hne hneg
      rw [show resolveDelta acc Sign.minus (Term.keyframeOrdinal n) ctx
            = stepLookup (kfTimes ctx) acc (-(n : Int)) from rfl, h, sub_eq_add_neg]

/-- Witness for C1: frames [10, 20, 30], accumulator 10, step +1. -/
theorem C1_witness :
    resolveDelta 10 Sign.plus (Term.frameOrdinal 1) ctx310
      = Except.ok (getClamped ctx310.frames (floorSearch ctx310.frames 10 + ((1 : Nat) : Int))) :=
  (C1_chained_delta_step_lookup.2.1 ctx310 10 1).1 (by decide)

/-- C2: a chained Milliseconds delta adds or subtracts its value on the
accumulator with plain integer arithmetic, and a frame delta that follows
queries the anchor table with the new accumulator as a raw millisecond query
point; checked on the spec examples over frames [10, 20, 30]. -/
theorem C2_milliseconds_delta :
    (∀ (ctx : TimelineContext) (acc v : Int) (sg : Sign) (rest : List (Sign × Term)),
      evalRest ctx acc ((sg, Term.milliseconds v) :: rest)
        = evalRest ctx (acc + signedInt sg v) rest) ∧
    (∀ (ctx : TimelineContext) (acc v : Int) (sg sg2 : Sign) (n : Nat)
        (rest : List (Sign × Term)),
      evalRest ctx acc ((sg, Term.milliseconds v) :: (sg2, Term.frameOrdinal n) :: rest)
        = match stepLookup ctx.frames (acc + signedInt sg v) (signedInt sg2 ((n : Nat) : Int)) with
          | Except.error e => Except.error e
          | Except.ok acc2 => evalRest ctx acc2 rest) ∧
    evaluate "1f+1f" none ctx310 = Except.ok 20 ∧
    evaluate "1f+1ms" none ctx310 = Except.ok 11 ∧
    evaluate "1f+1ms+1f" none ctx310 = Except.ok 20 :=
  ⟨fun _ _ _ _ _ => rfl, fun _ _ _ _ _ _ _ => rfl, rfl, rfl, rfl⟩

/-! ### Origin independence lemmas -/

theorem resolveFirst_origin_indep (sg : Option Sign) (t : Term) (o1 o2 : Option Int)
    (ctx : TimelineContext)
    (h : sg = none ∨ ∀ v : Int, t ≠ Term.milliseconds v) :
    resolveFirst sg t o1 ctx = resolveFirst sg t o2 ctx := by
  rcases h with rfl | h
  · cases t <;> rfl
  · rcases sg with _ | s
    · cases t <;> rfl
    · cases t <;> first | exact absurd rfl (h _) | rfl

theorem evaluateExpr_origin_indep (e : Expression) (o1 o2 : Option Int)
    (ctx : TimelineContext)
    (h : e.firstSign = none ∨ ∀ v : Int, e.firstTerm ≠ Term.milliseconds v) :
    evaluateExpr e o1 ctx = evaluateExpr e o2 ctx := by
  unfold evaluateExpr
  rw [resolveFirst_origin_indep e.firstSign e.firstTerm o1 o2 ctx h]

theorem evaluate_origin_indep (s : String) (e : Expression) (o1 o2 : Option Int)
    (ctx : TimelineContext) (hp : parse s = Except.ok e) (hs : e.firstSign = none) :
    evaluate s o1 ctx = evaluate s o2 ctx := by
  unfold evaluate
  rw [hp]
  exact evaluateExpr_origin_indep e o1 o2 ctx (Or.inl hs)

/-- C3: a signed leading Milliseconds term resolves to origin (0 when absent)
plus or minus the value, this is the only place origin is consulted, and an
expression whose first term is unsigned evaluates independently of origin;
checked on the spec examples. -/
theorem C3_signed_leading_milliseconds :
    (∀ ctx : TimelineContext, evaluate "+500ms" none ctx = Except.ok 500) ∧
    (∀ ctx : TimelineContext, evaluate "+500ms" (some 25) ctx = Except.ok 525) ∧
    (∀ ctx : TimelineContext, evaluate "-500ms" (some 25) ctx = Except.ok (-475)) ∧
    (∀ (s : Sign) (v : Int) (origin : Option Int) (ctx : TimelineContext),
      resolveFirst (some s) (Term.milliseconds v) origin ctx
        = Except.ok (origin.getD 0 + signedInt s v)) ∧
    (∀ (sg : Option Sign) (t : Term) (o1 o2 : Option Int) (ctx : TimelineContext),
      (sg = none ∨ ∀ v : Int, t ≠ Term.milliseconds v) →
      resolveFirst sg t o1 ctx = resolveFirst sg t o2 ctx) ∧
    (∀ (s : String) (e : Expression) (o1 o2 : Option Int) (ctx : TimelineContext),
      parse s = Except.ok e → e.firstSign = none →
      evaluate s o1 ctx = evaluate s o2 ctx) ∧
    (∀ (o : Option Int) (ctx : TimelineContext),
      evaluate "500ms" o ctx = Except.ok 500 ∧
      evaluate "0ms+500ms" o ctx = Except.ok 500) :=
  ⟨fun _ => rfl, fun _ => rfl, fun _ => rfl, fun _ _ _ _ => rfl,
    fun sg t o1 o2 ctx h => resolveFirst_origin_indep sg t o1 o2 ctx h,
    fun s e o1 o2 ctx hp hs => evaluate_origin_indep s e o1 o2 ctx hp hs,
    fun _ _ => ⟨rfl, rfl⟩⟩

/-- Witness for C3: the unsigned expression 500ms with two different origins. -/
theorem C3_witness :
    evaluate "500ms" (some 7) baseCtx = evaluate "500ms" (some 99) baseCtx :=
  C3_signed_leading_milliseconds.2.2.2.2.2.1 "500ms"
    ⟨none, Term.milliseconds 500, []⟩ (some 7) (some 99) baseCtx rfl rfl

/-! ### Ordinal lookup lemma -/

theorem ordinalLookup_eq (A : List Int) (n : Nat) (hA : A ≠ []) :
    ordinalLookup A n
      = Except.ok (A.getD (max 0 (min ((n : Int) - 1) ((A.length : Int) - 1))).toNat 0) := by
  have hlen : 0 < A.length := List.length_pos.mpr hA
  rw [ordinalLookup, isEmpty_false_of_ne_nil hA]
  simp only [Bool.false_eq_true, if_false]
  congr 2
  omega

/-- C4: a 1-based frame or keyframe ordinal resolves positionally by clamping
n - 1 into [0, len - 1] over its anchor table, and fails with NoFrames on an
empty table; checked on the spec examples over frames [10, 20, 30] and
keyframes at indices 0 and 2. -/
theorem C4_ordinal_clamping :
    (∀ (ctx : TimelineContext) (n : Nat),
      (ctx.frames ≠ [] →
        resolvePositional (Term.frameOrdinal n) ctx
          = Except.ok (ctx.frames.getD
              (max 0 (min ((n : Int) - 1) ((ctx.frames.length : Int) - 1))).toNat 0)) ∧
      (ctx.frames = [] →
        resolvePositional (Term.frameOrdinal n) ctx = Except.error PtsError.noFrames) ∧
      (kfTimes ctx ≠ [] →
        resolvePositional (Term.keyframeOrdinal n) ctx
          = Except.ok ((kfTimes ctx).getD
              (max 0 (min ((n : Int) - 1) (((kfTimes ctx).length : Int) - 1))).toNat 0)) ∧
      (kfTimes ctx = [] →
        resolvePositional (Term.keyframeOrdinal n) ctx = Except.error PtsError.noFrames)) ∧
    evaluate "0f" none ctx310 = Except.ok 10 ∧
    evaluate "1f" none ctx310 = Except.ok 10 ∧
    evaluate "5f" none ctx310 = Except.ok 30 ∧
    evaluate "3f" none ctx310 = Except.ok 30 ∧
    evaluate "1f" none baseCtx = Except.error PtsError.noFrames ∧
    evaluate "0kf" none ctxKf02 = Except.ok 10 ∧
    evaluate "1kf" none ctxKf02 = Except.ok 10 ∧
    evaluate "2kf" none ctxKf02 = Except.ok 30 ∧
    evaluate "3kf" none ctxKf02 = Except.ok 30 ∧
    evaluate "1kf" none baseCtx = Except.error PtsError.noFrames := by
  refine ⟨?_, rfl, rfl, rfl, rfl, rfl, rfl, rfl, rfl, rfl, rfl⟩
  intro ctx n
  refine ⟨fun h => ordinalLookup_eq ctx.frames n h, fun h => ?_,
    fun h => ordinalLookup_eq (kfTimes ctx) n h, fun h => ?_⟩
  · show ordinalLookup ctx.frames n = _
    rw [h]
    rfl
  · show ordinalLookup (kfTimes ctx) n = _
    rw [h]
    rfl

/-- Witness for C4: frame ordinal 1 against the empty frame table. -/
theorem C4_witness :
    resolvePositional (Term.frameOrdinal 1) baseCtx = Except.error PtsError.noFrames :=
  (C4_ordinal_clamping.1 baseCtx 1).2.1 rfl

/-- C5: the keyframe family follows the same rules as the frame family but
over the keyframe-filtered sub-sequence of frame times, and with an empty
keyframe set ckf, pkf and nkf all fail; checked on the spec examples over
frames [10, 20, 30, 40]. -/
theorem C5_keyframe_family :
    (∀ (ctx : TimelineContext) (n : Nat),
      resolvePositional (Term.keyframeOrdinal n) ctx
        = resolvePositional (Term.frameOrdinal n) { ctx with frames := kfTimes ctx } ∧
      resolvePositional Term.prevKeyframe ctx
        = resolvePositional Term.prevFrame { ctx with frames := kfTimes ctx } ∧
      resolvePositional Term.nextKeyframe ctx
        = resolvePositional Term.nextFrame { ctx with frames := kfTimes ctx } ∧
      (kfTimes ctx ≠ [] →
        resolvePositional Term.currentKeyframe ctx
          = resolvePositional Term.currentFrame { ctx with frames := kfTimes ctx }) ∧
      (ctx.keyframes = [] →
        resolvePositional Term.currentKeyframe ctx = Except.error PtsError.noFrames ∧
        resolvePositional Term.prevKeyframe ctx = Except.error PtsError.noFrames ∧
        resolvePositional Term.nextKeyframe ctx = Except.error PtsError.noFrames)) ∧
    evaluate "ckf" none ctxKf4a = Except.ok 20 ∧
    evaluate "pkf" none ctxKf4a = Except.ok 10 ∧
    evaluate "nkf" none ctxKf4b = Except.ok 30 ∧
    evaluate "ckf" none baseCtx = Except.error PtsError.noFrames ∧
    evaluate "pkf" none baseCtx = Except.error PtsError.noFrames ∧
    evaluate "nkf" none baseCtx = Except.error PtsError.noFrames := by
  refine ⟨?_, rfl, rfl, rfl, rfl, rfl, rfl⟩
  intro ctx n
  refine ⟨rfl, rfl, rfl, fun h => ?_, fun h => ?_⟩
  · show currentAnchor (kfTimes ctx) ctx.currentPts (Except.error PtsError.noFrames)
      = currentAnchor (kfTimes ctx) ctx.currentPts (Except.ok 0)
    unfold currentAnchor
    rw [isEmpty_false_of_ne_nil h]
    simp
  · have hk : kfTimes ctx = [] := by
      unfold kfTimes
      rw [h]
      rfl
    refine ⟨?_, ?_, ?_⟩
    · show currentAnchor (kfTimes ctx) ctx.currentPts (Except.error PtsError.noFrames) = _
      rw [hk]
      rfl
    · show prevAnchor (kfTimes ctx) ctx.currentPts = _
      rw [hk]
      rfl
    · show nextAnchor (kfTimes ctx) ctx.currentPts = _
      rw [hk]
      rfl

/-- Witness for C5: ckf against an empty keyframe set. -/
theorem C5_witness :
    resolvePositional Term.currentKeyframe baseCtx = Except.error PtsError.noFrames :=
  ((C5_keyframe_family.1 baseCtx 0).2.2.2.2 rfl).1

/-- C6: cf on an empty frame table is the defined fallback 0 while pf and nf
fail, and on frames [10, 20, 30] with the position at the second frame cf,
pf and nf give 20, 10 and 30. -/
theorem C6_current_prev_next_frame :
    (∀ ctx : TimelineContext, ctx.frames = [] →
      resolvePositional Term.currentFrame ctx = Except.ok 0 ∧
      resolvePositional Term.prevFrame ctx = Except.error PtsError.noFrames ∧
      resolvePositional Term.nextFrame ctx = Except.error PtsError.noFrames) ∧
    evaluate "cf" none ctxCur310 = Except.ok 20 ∧
    evaluate "pf" none ctxCur310 = Except.ok 10 ∧
    evaluate "nf" none ctxCur310 = Except.ok 30 ∧
    evaluate "cf" none baseCtx = Except.ok 0 ∧
    evaluate "pf" none baseCtx = Except.error PtsError.noFrames ∧
    evaluate "nf" none baseCtx = Except.error PtsError.noFrames := by
  refine ⟨?_, rfl, rfl, rfl, rfl, rfl, rfl⟩
  intro ctx h
  refine ⟨?_, ?_, ?_⟩
  · show currentAnchor ctx.frames ctx.currentPts (Except.ok 0) = _
    rw [h]
    rfl
  · show prevAnchor ctx.frames ctx.currentPts = _
    rw [h]
    rfl
  · show nextAnchor ctx.frames ctx.currentPts = _
    rw [h]
    rfl

/-- Witness for C6: the three variants against the empty frame table. -/
theorem C6_witness :
    resolvePositional Term.currentFrame baseCtx = Except.ok 0 :=
  (C6_current_prev_next_frame.1 baseCtx rfl).1

/-- C8: positional subtitle terms never fail; the ordinal clamps its index
and returns 0 on an empty event list, and the selection-relative variants
return 0 on an empty selection or at the first or last event; checked on
the spec and test examples. -/
theorem C8_subtitle_terms_total :
    (∀ (ctx : TimelineContext) (n : Nat) (edge : Edge),
      (ctx.events = [] →
        resolvePositional (Term.subtitleOrdinal n edge) ctx = Except.ok 0) ∧
      (ctx.events ≠ [] →
        resolvePositional (Term.subtitleOrdinal n edge) ctx
          = Except.ok
              ((ctx.events.getD (min (n - 1) (ctx.events.length - 1)) default).edge edge))) ∧
    (∀ (ctx : TimelineContext) (edge : Edge),
      (ctx.selection = [] →
        resolvePositional (Term.currentSubtitle edge) ctx = Except.ok 0 ∧
        resolvePositional (Term.prevSubtitle edge) ctx = Except.ok 0 ∧
        resolvePositional (Term.nextSubtitle edge) ctx = Except.ok 0) ∧
      (∀ (i : Nat) (tl : List Nat), ctx.selection = i :: tl →
        (i = 0 → resolvePositional (Term.prevSubtitle edge) ctx = Except.ok 0) ∧
        (ctx.events.length ≤ i + 1 →
          resolvePositional (Term.nextSubtitle edge) ctx = Except.ok 0))) ∧
    (∀ (ctx : TimelineContext) (n : Nat) (edge : Edge),
      (∃ v, resolvePositional (Term.subtitleOrdinal n edge) ctx = Except.ok v) ∧
      (∃ v, resolvePositional (Term.currentSubtitle edge) ctx = Except.ok v) ∧
      (∃ v, resolvePositional (Term.prevSubtitle edge) ctx = Except.ok v) ∧
      (∃ v, resolvePositional (Term.nextSubtitle edge) ctx = Except.ok v)) ∧
    evaluate "s1.s" none baseCtx = Except.ok 0 ∧
    evaluate "s3.s" none ctxSubs1 = Except.ok 1 ∧
    evaluate "s0.s" none ctxSubs1 = Except.ok 1 ∧
    evaluate "cs.s" none ctxSubs3sel1 = Except.ok 3 ∧
    evaluate "cs.e" none ctxSubs3sel1 = Except.ok 4 ∧
    evaluate "ps.s" none ctxSubs3sel1 = Except.ok 1 ∧
    evaluate "ns.s" none ctxSubs3sel1 = Except.ok 5 ∧
    evaluate "ps.s" none ctxSubs3sel0 = Except.ok 0 ∧
    evaluate "ns.s" none ctxSubs3sel2 = Except.ok 0 := by
  refine ⟨?_, ?_, ?_, rfl, rfl, rfl, rfl, rfl, rfl, rfl, rfl, rfl⟩
  · intro ctx n edge
    constructor
    · intro h
      simp [resolvePositional, h]
    · intro h
      simp [resolvePositional, isEmpty_false_of_ne_nil h]
  · intro ctx edge
    constructor
    · intro h
      refine ⟨?_, ?_, ?_⟩ <;> simp [resolvePositional, h]
    · intro i tl hsel
      constructor
      · intro hz
        simp [resolvePositional, hsel, hz]
      · intro hlast
        simp [resolvePositional, hsel, hlast]
  · intro ctx n edge
    refine ⟨?_, ?_, ?_, ?_⟩
    · simp only [resolvePositional]
      split
      · exact ⟨0, rfl⟩
      · exact ⟨_, rfl⟩
    · simp only [resolvePositional]
      split
      · exact ⟨0, rfl⟩
      · exact ⟨_, rfl⟩
    · simp only [resolvePositional]
      split
      · exact ⟨0, rfl⟩
      · split
        · exact ⟨0, rfl⟩
        · exact ⟨_, rfl⟩
    · simp only [resolvePositional]
      split
      · exact ⟨0, rfl⟩
      · split
        · exact ⟨0, rfl⟩
        · exact ⟨_, rfl⟩

/-- Witness for C8: subtitle ordinal 1 against the empty event list. -/
theorem C8_witness :
    resolvePositional (Term.subtitleOrdinal 1 Edge.start) baseCtx = Except.ok 0 :=
  (C8_subtitle_terms_total.1 baseCtx 1 Edge.start).1 rfl

/-- C9: with no active audio selection the audio-selection terms fail with
the Unavailable kind, which is distinct from the Malformed syntax error,
while the audio-view terms always resolve to the view bounds for every
selection state. -/
theorem C9_audio_terms :
    (∀ (ctx : TimelineContext) (edge : Edge), ctx.audioSel = none →
      resolvePositional (Term.audioSelection edge) ctx
        = Except.error PtsError.unavailable) ∧
    PtsError.unavailable ≠ PtsError.malformed ∧
    excClassOf PtsError.unavailable ≠ excClassOf PtsError.malformed ∧
    (∀ ctx : TimelineContext,
      resolvePositional (Term.audioView Edge.start) ctx = Except.ok ctx.audioViewStart ∧
      resolvePositional (Term.audioView Edge.stop) ctx = Except.ok ctx.audioViewEnd) ∧
    (∀ o : Option Int,
      evaluate "a.s" o baseCtx = Except.error PtsError.unavailable ∧
      evaluate "a.e" o baseCtx = Except.error PtsError.unavailable) ∧
    evaluate "a.s" none ctxAud = Except.ok 1 ∧
    evaluate "a.e" none ctxAud = Except.ok 2 ∧
    (∀ sel : Option (Int × Int),
      evaluate "av.s" none
          { baseCtx with audioSel := sel, audioViewStart := 1, audioViewEnd := 2 }
        = Except.ok 1 ∧
      evaluate "av.e" none
          { baseCtx with audioSel := sel, audioViewStart := 1, audioViewEnd := 2 }
        = Except.ok 2) := by
  refine ⟨?_, by decide, by decide, fun ctx => ⟨rfl, rfl⟩, fun o => ⟨rfl, rfl⟩, rfl, rfl,
    fun sel => ⟨rfl, rfl⟩⟩
  intro ctx edge h
  simp [resolvePositional, h]

/-- Witness for C9: the audio-selection term with no selection active. -/
theorem C9_witness :
    resolvePositional (Term.audioSelection Edge.start) baseCtx
      = Except.error PtsError.unavailable :=
  C9_audio_terms.1 baseCtx Edge.start rfl

/-- C10: the Unavailable failure's concrete class is CommandUnavailable, a
subclass of the general CommandError class, so every handler catching the
general class catches it, while the two classes stay distinguishable. -/
theorem C10_unavailable_subclass :
    (∀ handler : ExcClass, catches handler ExcClass.commandError = true →
      catches handler ExcClass.commandUnavailable = true) ∧
    (∀ e : PtsError, catches ExcClass.commandError (excClassOf e) = true) ∧
    excClassOf PtsError.unavailable = ExcClass.commandUnavailable ∧
    excClassOf PtsError.malformed = ExcClass.commandError ∧
    ExcClass.commandUnavailable ≠ ExcClass.commandError := by
  refine ⟨?_, ?_, rfl, rfl, by decide⟩
  · intro handler h
    cases handler
    · rfl
    · rfl
    · exact absurd h (by decide)
  · intro e
    cases e <;> rfl

/-- Witness for C10: a CommandError handler catches the Unavailable class. -/
theorem C10_witness :
    catches ExcClass.commandError ExcClass.commandUnavailable = true :=
  C10_unavailable_subclass.1 ExcClass.commandError (by decide)

/-! ### Parser shape lemmas -/

theorem skipWs_nil_iff (cs : List Char) :
    skipWs cs = [] ↔ ∀ c ∈ cs, isWsChar c = true := by
  induction cs with
  | nil => simp [skipWs]
  | cons a rest ih =>
    rw [skipWs]
    by_cases ha : isWsChar a = true
    · rw [if_pos ha, ih]
      constructor
      · intro h c hc
        rcases List.mem_cons.mp hc with rfl | hc2
        · exact ha
        · exact h c hc2
      · intro h c hc
        exact h c (List.mem_cons_of_mem a hc)
    · rw [if_neg ha]
      constructor
      · intro h
        exact absurd h (by simp)
      · intro h
        exact absurd (h a (List.mem_cons_self a rest)) ha

theorem skipWs_decomp (cs : List Char) :
    ∃ w, cs = w ++ skipWs cs ∧ ∀ c ∈ w, isWsChar c = true := by
  induction cs with
  | nil => exact ⟨[], rfl, by simp⟩
  | cons a rest ih =>
    by_cases ha : isWsChar a = true
    · obtain ⟨w, hw, hwall⟩ := ih
      refine ⟨a :: w, ?_, ?_⟩
      · rw [skipWs, if_pos ha]
        exact congrArg (List.cons a) hw
      · intro c hc
        rcases List.mem_cons.mp hc with rfl | h2
        · exact ha
        · exact hwall c h2
    · refine ⟨[], ?_, by simp⟩
      rw [skipWs, if_neg ha]
      rfl

theorem takeDigits_append (cs : List Char) :
    cs = (takeDigits cs).1 ++ (takeDigits cs).2 := by
  induction cs with
  | nil => rfl
  | cons c rest ih =>
    rw [takeDigits]
    by_cases hc : isDigitChar c = true
    · rw [if_pos hc]
      exact congrArg (List.cons c) ih
    · rw [if_neg hc]
      rfl

theorem takeDigits_all (cs : List Char) (h : ∀ c ∈ cs, isDigitChar c = true) :
    takeDigits cs = (cs, []) := by
  induction cs with
  | nil => rfl
  | cons c rest ih =>
    rw [takeDigits, if_pos (h c (List.mem_cons_self c rest)),
      ih fun x hx => h x (List.mem_cons_of_mem c hx)]

theorem lastNonWs_cons_some (c : Char) (xs : List Char) (d : Char)
    (h : lastNonWs xs = some d) : lastNonWs (c :: xs) = some d := by
  rw [lastNonWs, h]

theorem lastNonWs_append_some (xs ys : List Char) (c : Char)
    (h : lastNonWs ys = some c) : lastNonWs (xs ++ ys) = some c := by
  induction xs with
  | nil => exact h
  | cons a as ih =>
    rw [List.cons_append]
    exact lastNonWs_cons_some a _ c ih

theorem lastNonWs_append_none (xs ys : List Char) (h : lastNonWs ys = none) :
    lastNonWs (xs ++ ys) = lastNonWs xs := by
  induction xs with
  | nil =>
    rw [List.nil_append, h]
    rfl
  | cons a as ih =>
    rw [List.cons_append, lastNonWs, ih, lastNonWs]

theorem lastNonWs_of_allWs (cs : List Char) (h : ∀ c ∈ cs, isWsChar c = true) :
    lastNonWs cs = none := by
  induction cs with
  | nil => rfl
  | cons a as ih =>
    rw [lastNonWs, ih fun c hc => h c (List.mem_cons_of_mem a hc)]
    simp [h a (List.mem_cons_self a as)]

theorem lastNonWs_of_skipWs_nil (cs : List Char) (h : skipWs cs = []) :
    lastNonWs cs = none :=
  lastNonWs_of_allWs cs ((skipWs_nil_iff cs).mp h)

theorem parseEdge_some (c : Char) (ed : Edge) (h : parseEdge c = some ed) :
    termEnder c = true := by
  unfold parseEdge at h
  split_ifs at h with h1 h2
  · subst h1
    rfl
  · subst h2
    rfl

theorem termEnder_not_ws (c : Char) (h : termEnder c = true) : isWsChar c = false := by
  have hc : ((c = 's' ∨ c = 'f') ∨ c = 'e') ∨ c = 'd' := by
    simpa [termEnder] using h
  rcases hc with ((rfl | rfl) | rfl) | rfl <;> rfl

set_option maxHeartbeats 2000000 in
/-- A successfully parsed term consumes a non-empty prefix whose last
non-whitespace character is a term-ending character of the grammar. -/
theorem parseTerm_shape (cs : List Char) (t : Term) (rest : List Char)
    (h : parseTerm cs = some (t, rest)) :
    ∃ pre c, cs = pre ++ rest ∧ lastNonWs pre = some c ∧ termEnder c = true := by
  unfold parseTerm at h
  rcases htd : takeDigits cs with ⟨dig, rst⟩
  rw [htd] at h
  have hcs := takeDigits_append cs
  rw [htd] at hcs
  simp only [] at hcs
  cases dig with
  | cons d ds =>
    simp only [] at h
    obtain ⟨w, hw, hwall⟩ := skipWs_decomp rst
    split at h
    · rename_i rest2 heq
      simp only [Option.some.injEq, Prod.mk.injEq] at h
      obtain ⟨ht, hr⟩ := h
      subst hr
      refine ⟨(d :: ds) ++ w ++ ['m', 's'], 's', ?_, ?_, rfl⟩
      · rw [hcs, hw, heq]
        simp [List.append_assoc]
      · exact lastNonWs_append_some _ _ _ (by rfl)
    · rename_i rest2 heq
      simp only [Option.some.injEq, Prod.mk.injEq] at h
      obtain ⟨ht, hr⟩ := h
      subst hr
      refine ⟨(d :: ds) ++ w ++ ['k', 'f'], 'f', ?_, ?_, rfl⟩
      · rw [hcs, hw, heq]
        simp [List.append_assoc]
      · exact lastNonWs_append_some _ _ _ (by rfl)
    · rename_i rest2 heq
      simp only [Option.some.injEq, Prod.mk.injEq] at h
      obtain ⟨ht, hr⟩ := h
      subst hr
      refine ⟨(d :: ds) ++ w ++ ['f'], 'f', ?_, ?_, rfl⟩
      · rw [hcs, hw, heq]
        simp [List.append_assoc]
      · exact lastNonWs_append_some _ _ _ (by rfl)
    · simp at h
  | nil =>
    simp only [] at h
    split at h
    · rename_i rest0
      simp only [Option.some.injEq, Prod.mk.injEq] at h
      obtain ⟨ht, hr⟩ := h
      subst hr
      exact ⟨['c', 'k', 'f'], 'f', rfl, by rfl, rfl⟩
    · rename_i rest0
      simp only [Option.some.injEq, Prod.mk.injEq] at h
      obtain ⟨ht, hr⟩ := h
      subst hr
      exact ⟨['p', 'k', 'f'], 'f', rfl, by rfl, rfl⟩
    · rename_i rest0
      simp only [Option.some.injEq, Prod.mk.injEq] at h
      obtain ⟨ht, hr⟩ := h
      subst hr
      exact ⟨['n', 'k', 'f'], 'f', rfl, by rfl, rfl⟩
    · rename_i rest0
      simp only [Option.some.injEq, Prod.mk.injEq] at h
      obtain ⟨ht, hr⟩ := h
      subst hr
      exact ⟨['c', 'f'], 'f', rfl, by rfl, rfl⟩
    · rename_i rest0
      simp only [Option.some.injEq, Prod.mk.injEq] at h
      obtain ⟨ht, hr⟩ := h
      subst hr
      exact ⟨['p', 'f'], 'f', rfl, by rfl, rfl⟩
    · rename_i rest0
      simp only [Option.some.injEq, Prod.mk.injEq] at h
      obtain ⟨ht, hr⟩ := h
      subst hr
      exact ⟨['n', 'f'], 'f', rfl, by rfl, rfl⟩
    · rename_i e rest0
      rcases hpe : parseEdge e with _ | ed
      · rw [hpe] at h
        simp at h
      · rw [hpe] at h
        simp only [Option.map_some', Option.some.injEq, Prod.mk.injEq] at h
        obtain ⟨ht, hr⟩ := h
        subst hr
        have he := parseEdge_some e ed hpe
        refine ⟨['c', 's', '.'] ++ [e], e, rfl, ?_, he⟩
        exact lastNonWs_append_some _ _ _ (by simp [lastNonWs, termEnder_not_ws e he])
    · rename_i e rest0
      rcases hpe : parseEdge e with _ | ed
      · rw [hpe] at h
        simp at h
      · rw [hpe] at h
        simp only [Option.map_some', Option.some.injEq, Prod.mk.injEq] at h
        obtain ⟨ht, hr⟩ := h
        subst hr
        have he := parseEdge_some e ed hpe
        refine ⟨['p', 's', '.'] ++ [e], e, rfl, ?_, he⟩
        exact lastNonWs_append_some _ _ _ (by simp [lastNonWs, termEnder_not_ws e he])
    · rename_i e rest0
      rcases hpe : parseEdge e with _ | ed
      · rw [hpe] at h
        simp at h
      · rw [hpe] at h
        simp only [Option.map_some', Option.some.injEq, Prod.mk.injEq] at h
        obtain ⟨ht, hr⟩ := h
        subst hr
        have he := parseEdge_some e ed hpe
        refine ⟨['n', 's', '.'] ++ [e], e, rfl, ?_, he⟩
        exact lastNonWs_append_some _ _ _ (by simp [lastNonWs, termEnder_not_ws e he])
    · rename_i e rest0
      rcases hpe : parseEdge e with _ | ed
      · rw [hpe] at h
        simp at h
      · rw [hpe] at h
        simp only [Option.map_some', Option.some.injEq, Prod.mk.injEq] at h
        obtain ⟨ht, hr⟩ := h
        subst hr
        have he := parseEdge_some e ed hpe
        refine ⟨['a', 'v', '.'] ++ [e], e, rfl, ?_, he⟩
        exact lastNonWs_append_some _ _ _ (by simp [lastNonWs, termEnder_not_ws e he])
    · rename_i e rest0
      rcases hpe : parseEdge e with _ | ed
      · rw [hpe] at h
        simp at h
      · rw [hpe] at h
        simp only [Option.map_some', Option.some.injEq, Prod.mk.injEq] at h
        obtain ⟨ht, hr⟩ := h
        subst hr
        have he := parseEdge_some e ed hpe
        refine ⟨['a', '.'] ++ [e], e, rfl, ?_, he⟩
        exact lastNonWs_append_some _ _ _ (by simp [lastNonWs, termEnder_not_ws e he])
    · rename_i rest0
      simp only [Option.some.injEq, Prod.mk.injEq] at h
      obtain ⟨ht, hr⟩ := h
      subst hr
      exact ⟨['d', 's', 'd'], 'd', rfl, by rfl, rfl⟩
    · rename_i rest0
      rcases htd2 : takeDigits rest0 with ⟨dig2, rst2⟩
      rw [htd2] at h
      have hr0 := takeDigits_append rest0
      rw [htd2] at hr0
      simp only [] at hr0
      cases dig2 with
      | nil => simp at h
      | cons d2 ds2 =>
        split at h
        · rename_i d3 ds3 e rest2 heq2
          simp only [Prod.mk.injEq] at heq2
          obtain ⟨hd, hrst⟩ := heq2
          rw [hd, hrst] at hr0
          rcases hpe : parseEdge e with _ | ed
          · rw [hpe] at h
            simp at h
          · rw [hpe] at h
            simp only [Option.map_some', Option.some.injEq, Prod.mk.injEq] at h
            obtain ⟨ht, hr⟩ := h
            subst hr
            have he := parseEdge_some e ed hpe
            refine ⟨('s' :: ((d3 :: ds3) ++ ['.'])) ++ [e], e, ?_, ?_, he⟩
            · rw [hr0]
              simp [List.append_assoc]
            · exact lastNonWs_append_some _ _ _
                (by simp [lastNonWs, termEnder_not_ws e he])
        · simp at h
    · simp at h

/-- A successful tail parse consumes input whose last non-whitespace
character, if any, is a term-ending character. -/
theorem parseRestAux_shape (fuel : Nat) :
    ∀ (cs : List Char) (chain : List (Sign × Term)),
      parseRestAux fuel cs = some chain →
      lastNonWs cs = none ∨ ∃ c, lastNonWs cs = some c ∧ termEnder c = true := by
  induction fuel with
  | zero =>
    intro cs chain h
    rw [parseRestAux] at h
    split_ifs at h with h1
    exact Or.inl (lastNonWs_of_skipWs_nil cs h1)
  | succ fuel ih =>
    intro cs chain h
    rw [parseRestAux] at h
    obtain ⟨w, hwcs, hwall⟩ := skipWs_decomp cs
    split at h
    · rename_i heq
      exact Or.inl (lastNonWs_of_skipWs_nil cs heq)
    · rename_i c rest heq
      rw [heq] at hwcs
      split at h
      · exact absurd h (by simp)
      · rename_i sg hsg
        split at h
        · exact absurd h (by simp)
        · rename_i t rest2 hterm
          split at h
          · exact absurd h (by simp)
          · rename_i chain2 hrest
            right
            obtain ⟨w2, hwr, hwall2⟩ := skipWs_decomp rest
            obtain ⟨pre, ce, hpre, hlast, hend⟩ := parseTerm_shape _ _ _ hterm
            rw [hpre] at hwr
            rw [hwr] at hwcs
            rcases ih rest2 chain2 hrest with hnone | ⟨c2, hc2, hend2⟩
            · have l1 : lastNonWs (pre ++ rest2) = some ce := by
                rw [lastNonWs_append_none pre rest2 hnone, hlast]
              have l2 := lastNonWs_append_some w2 _ ce l1
              have l3 := lastNonWs_cons_some c _ ce l2
              have l4 := lastNonWs_append_some w _ ce l3
              rw [hwcs]
              exact ⟨ce, l4, hend⟩
            · have l1 := lastNonWs_append_some pre rest2 c2 hc2
              have l2 := lastNonWs_append_some w2 _ c2 l1
              have l3 := lastNonWs_cons_some c _ c2 l2
              have l4 := lastNonWs_append_some w _ c2 l3
              rw [hwcs]
              exact ⟨c2, l4, hend2⟩

/-- A successfully parsed expression string ends, ignoring trailing
whitespace, in a term-ending character. -/
theorem parseChars_ok_shape (cs : List Char) (e : Expression)
    (h : parseChars cs = Except.ok e) :
    ∃ c, lastNonWs cs = some c ∧ termEnder c = true := by
  unfold parseChars at h
  obtain ⟨w, hwcs, hwall⟩ := skipWs_decomp cs
  split at h
  · exact absurd h (by simp)
  · rename_i c rest heq
    rw [heq] at hwcs
    split at h
    · rename_i sg hsg
      split at h
      · exact absurd h (by simp)
      · rename_i t rest2 hterm
        split at h
        · exact absurd h (by simp)
        · rename_i chain hrest
          obtain ⟨w2, hwr, hwall2⟩ := skipWs_decomp rest
          obtain ⟨pre, ce, hpre, hlast, hend⟩ := parseTerm_shape _ _ _ hterm
          rw [hpre] at hwr
          rw [hwr] at hwcs
          rcases parseRestAux_shape _ _ _ hrest with hnone | ⟨c2, hc2, hend2⟩
          · have l1 : lastNonWs (pre ++ rest2) = some ce := by
              rw [lastNonWs_append_none pre rest2 hnone, hlast]
            have l2 := lastNonWs_append_some w2 _ ce l1
            have l3 := lastNonWs_cons_some c _ ce l2
            have l4 := lastNonWs_append_some w _ ce l3
            rw [hwcs]
            exact ⟨ce, l4, hend⟩
          · have l1 := lastNonWs_append_some pre rest2 c2 hc2
            have l2 := lastNonWs_append_some w2 _ c2 l1
            have l3 := lastNonWs_cons_some c _ c2 l2
            have l4 := lastNonWs_append_some w _ c2 l3
            rw [hwcs]
            exact ⟨c2, l4, hend2⟩
    · split at h
      · exact absurd h (by simp)
      · rename_i t rest2 hterm
        split at h
        · exact absurd h (by simp)
        · rename_i chain hrest
          obtain ⟨pre, ce, hpre, hlast, hend⟩ := parseTerm_shape _ _ _ hterm
          rw [hpre] at hwcs
          rcases parseRestAux_shape _ _ _ hrest with hnone | ⟨c2, hc2, hend2⟩
          · have l1 : lastNonWs (pre ++ rest2) = some ce := by
              rw [lastNonWs_append_none pre rest2 hnone, hlast]
            have l4 := lastNonWs_append_some w _ ce l1
            rw [hwcs]
            exact ⟨ce, l4, hend⟩
          · have l1 := lastNonWs_append_some pre rest2 c2 hc2
            have l4 := lastNonWs_append_some w _ c2 l1
            rw [hwcs]
            exact ⟨c2, l4, hend2⟩

/-- Every parse failure carries the Malformed error kind. -/
theorem parseChars_error (cs : List Char) (err : PtsError)
    (h : parseChars cs = Except.error err) : err = PtsError.malformed := by
  unfold parseChars at h
  split at h
  · injection h with h2
    exact h2.symm
  · split at h
    · split at h
      · injection h with h2
        exact h2.symm
      · split at h
        · injection h with h2
          exact h2.symm
        · exact absurd h (by simp)
    · split at h
      · injection h with h2
        exact h2.symm
      · split at h
        · injection h with h2
          exact h2.symm
        · exact absurd h (by simp)

/-- When no parse succeeds, evaluation fails with Malformed. -/
theorem evaluate_parse_error (s : String) (o : Option Int) (ctx : TimelineContext)
    (h : ∀ e : Expression, parse s ≠ Except.ok e) :
    evaluate s o ctx = Except.error PtsError.malformed := by
  unfold evaluate
  cases hp : parse s with
  | error err =>
    have he := parseChars_error s.toList err hp
    subst he
    rfl
  | ok e => exact absurd hp (h e)

/-- A whitespace-only expression string fails with Malformed. -/
theorem evaluate_ws_only (s : String) (o : Option Int) (ctx : TimelineContext)
    (h : skipWs s.toList = []) :
    evaluate s o ctx = Except.error PtsError.malformed := by
  apply evaluate_parse_error
  intro e hp
  unfold parse parseChars at hp
  rw [h] at hp
  simp at hp

theorem digit_not_ws (c : Char) (h : isDigitChar c = true) : isWsChar c = false := by
  cases hb : isWsChar c
  · rfl
  · have hc : c = ' ' ∨ c = '\t' := by simpa [isWsChar] using hb
    rcases hc with rfl | rfl
    · exact absurd h (by decide)
    · exact absurd h (by decide)

theorem digit_not_sign (c : Char) (h : isDigitChar c = true) : parseSign c = none := by
  have h1 : ¬(c = '+') := by
    intro hc
    subst hc
    exact absurd h (by decide)
  have h2 : ¬(c = '-') := by
    intro hc
    subst hc
    exact absurd h (by decide)
  unfold parseSign
  rw [if_neg h1, if_neg h2]

/-- A bare run of digits with no unit suffix fails with Malformed. -/
theorem evaluate_bare_number (o : Option Int) (ctx : TimelineContext) (ds : List Char)
    (hne : ds ≠ []) (hd : ∀ c ∈ ds, isDigitChar c = true) :
    evaluate (String.mk ds) o ctx = Except.error PtsError.malformed := by
  apply evaluate_parse_error
  intro e hp
  have hp2 : parseChars ds = Except.ok e := hp
  cases ds with
  | nil => exact absurd rfl hne
  | cons d tl =>
    have hd0 := hd d (List.mem_cons_self d tl)
    have hsk : skipWs (d :: tl) = d :: tl := by
      rw [skipWs, if_neg]
      simp [digit_not_ws d hd0]
    have hpt : parseTerm (d :: tl) = none := by
      unfold parseTerm
      rw [takeDigits_all (d :: tl) hd]
      rfl
    unfold parseChars at hp2
    rw [hsk] at hp2
    simp only [] at hp2
    rw [digit_not_sign d hd0] at hp2
    simp only [] at hp2
    rw [hpt] at hp2
    simp at hp2

/-- C7: parsing fails with Malformed, regardless of the supplied origin, for
every expression that is empty or whitespace-only, every expression whose
last non-whitespace character is an operator (covering a lone operator and a
trailing operator), and every bare run of digits with no unit suffix; the
doubled-operator inputs of the spec are checked as instances. -/
theorem C7_malformed_inputs :
    (∀ (s : String) (o : Option Int) (ctx : TimelineContext) (c : Char),
      lastNonWs s.toList = some c → opChar c = true →
      evaluate s o ctx = Except.error PtsError.malformed) ∧
    (∀ (s : String) (o : Option Int) (ctx : TimelineContext),
      skipWs s.toList = [] → evaluate s o ctx = Except.error PtsError.malformed) ∧
    (∀ (o : Option Int) (ctx : TimelineContext) (ds : List Char),
      ds ≠ [] → (∀ c ∈ ds, isDigitChar c = true) →
      evaluate (String.mk ds) o ctx = Except.error PtsError.malformed) ∧
    (∀ (o : Option Int) (ctx : TimelineContext),
      evaluate "" o ctx = Except.error PtsError.malformed ∧
      evaluate "+" o ctx = Except.error PtsError.malformed ∧
      evaluate "0ms+" o ctx = Except.error PtsError.malformed ∧
      evaluate "0ms++" o ctx = Except.error PtsError.malformed ∧
      evaluate "0ms++0ms" o ctx = Except.error PtsError.malformed ∧
      evaluate "500" o ctx = Except.error PtsError.malformed ∧
      evaluate "ms" o ctx = Except.error PtsError.malformed) := by
  refine ⟨?_, ?_, ?_, fun o ctx => ⟨rfl, rfl, rfl, rfl, rfl, rfl, rfl⟩⟩
  · intro s o ctx c h1 h2
    apply evaluate_parse_error
    intro e hp
    obtain ⟨c2, hc2, hend⟩ := parseChars_ok_shape s.toList e hp
    rw [h1] at hc2
    injection hc2 with hcc
    subst hcc
    have hop : c = '+' ∨ c = '-' := by simpa [opChar] using h2
    rcases hop with rfl | rfl
    · exact absurd hend (by decide)
    · exact absurd hend (by decide)
  · exact fun s o ctx h => evaluate_ws_only s o ctx h
  · exact fun o ctx ds hne hd => evaluate_bare_number o ctx ds hne hd

/-- Witness for C7: the dangling-operator input 0ms+ with an origin. -/
theorem C7_witness :
    evaluate "0ms+" (some 25) baseCtx = Except.error PtsError.malformed :=
  C7_malformed_inputs.1 "0ms+" (some 25) baseCtx '+' rfl rfl

end Pts
